import Mathlib

/-!
# Verification of the BiLSTM-with-characters text classifier

Shallow embedding of `TextClassification/module/bilstm_char.py` over the reals
(PyTorch float tensors are modelled as real-valued functions, batched tensors as
`Fin`-indexed families).  The file first embeds the source definitions
(`PositionEmbed`, `BiLSTM.__init__`, `BiLSTM._attention`, `BiLSTM.forward`) and
the interfaces of the two collaborators that are not part of the provided source
(`CharEmbed`, `RNNEncoder`), then proves or refutes the claims of the
specification.
-/

namespace TextClassification

open Finset

/-! ## Softmax (`torch.nn.functional.softmax` along the time dimension)

`F.softmax` computes `exp (x t) / ∑ i, exp (x i)`; the max-subtracted stable
formulation used by the library is mathematically identical over ℝ. -/

noncomputable def softmax {T : ℕ} (x : Fin T → ℝ) : Fin T → ℝ :=
  fun t => Real.exp (x t) / ∑ i, Real.exp (x i)

/-! ## Attention (`BiLSTM._attention`, bilstm_char.py lines 65-93)

`hidden_n` is the query `[batch, H]`, `encoder_output` the keys/values
`[batch, T, H]`, `mask` the optional validity mask `[batch, T]`.
The raw score is the batched matrix product
`torch.bmm(hidden_n.unsqueeze(1), encoder_output.transpose(1, 2)).squeeze(1)`,
i.e. a dot product per position. -/

noncomputable def rawScore {B T H : ℕ} (hidden_n : Fin B → Fin H → ℝ)
    (encoder_output : Fin B → Fin T → Fin H → ℝ) : Fin B → Fin T → ℝ :=
  fun b t => ∑ h, hidden_n b h * encoder_output b t h

/-- `BiLSTM._attention`: the raw scores are multiplied in place by the mask
(when one is supplied), then by the scale `1/sqrt(H)`, softmax is taken over
the time dimension, and the pooled output
`torch.bmm(soft_att_weights.unsqueeze(1), encoder_output).squeeze(1)` is
returned together with the weight distribution. -/
noncomputable def attention {B T H : ℕ} (hidden_n : Fin B → Fin H → ℝ)
    (encoder_output : Fin B → Fin T → Fin H → ℝ)
    (mask : Option (Fin B → Fin T → ℝ)) :
    (Fin B → Fin H → ℝ) × (Fin B → Fin T → ℝ) :=
  let scale : ℝ := 1 / Real.sqrt H
  let att_weights : Fin B → Fin T → ℝ := rawScore hidden_n encoder_output
  let att_weights : Fin B → Fin T → ℝ :=
    Option.elim mask att_weights (fun m b t => att_weights b t * m b t)
  let soft_att_weights : Fin B → Fin T → ℝ :=
    fun b => softmax (fun t => att_weights b t * scale)
  let att_out : Fin B → Fin H → ℝ :=
    fun b h => ∑ t, soft_att_weights b t * encoder_output b t h
  (att_out, soft_att_weights)

/-! ## The attention algorithm as worded by the specification (§4.3)

Written from the spec sentences, to be compared with `attention`:
1. raw scores are dot products query·key,
2. a supplied mask zeroes scores multiplicatively BEFORE scaling,
3. scores are scaled by `1/sqrt(H)`,
4. softmax over the time dimension,
5. pooled vector is the weighted sum of the values. -/
noncomputable def attentionSpec {B T H : ℕ} (query : Fin B → Fin H → ℝ)
    (keys : Fin B → Fin T → Fin H → ℝ)
    (mask : Option (Fin B → Fin T → ℝ)) :
    (Fin B → Fin H → ℝ) × (Fin B → Fin T → ℝ) :=
  let score : Fin B → Fin T → ℝ := fun b t => ∑ h, query b h * keys b t h
  let masked : Fin B → Fin T → ℝ :=
    Option.elim mask score (fun m b t => score b t * m b t)
  let scaled : Fin B → Fin T → ℝ := fun b t => masked b t * (1 / Real.sqrt H)
  let weight : Fin B → Fin T → ℝ := fun b => softmax (scaled b)
  let pooled : Fin B → Fin H → ℝ := fun b h => ∑ t, weight b t * keys b t h
  (pooled, weight)

/-! ## Position embedder (`PositionEmbed`, bilstm_char.py lines 10-30) -/

/-- The registered buffer
`pe = 1. / torch.pow(10000, 2 * torch.arange(0.0, embed_dim/2) / embed_dim)`. -/
noncomputable def PositionEmbed.pe (embed_dim : ℕ) : Fin (embed_dim / 2) → ℝ :=
  fun i => 1 / (10000 : ℝ) ^ ((2 * (i : ℕ) : ℝ) / (embed_dim : ℝ))

/-- `PositionEmbed.forward`: for each example `b` of the batch the outer
product `torch.ger(pos_seqs[b], pe)` is taken, `sin` and `cos` are applied and
concatenated along the feature dimension, and the per-example results are
stacked along the batch dimension. -/
noncomputable def PositionEmbed.forward (embed_dim : ℕ) {B S : ℕ}
    (pos_seqs : Fin B → Fin S → ℝ) :
    Fin B → Fin S → Fin (embed_dim / 2 + embed_dim / 2) → ℝ :=
  fun b s =>
    Fin.append (fun i => Real.sin (pos_seqs b s * PositionEmbed.pe embed_dim i))
      (fun i => Real.cos (pos_seqs b s * PositionEmbed.pe embed_dim i))

/-- The frequency schedule as worded by the spec (§4.1):
`frequency[i] = 1 / 10000^(2i/embed_dim)` for `i` in `0 .. embed_dim/2 - 1`. -/
noncomputable def specFreq (embed_dim : ℕ) : Fin (embed_dim / 2) → ℝ :=
  fun i => 1 / (10000 : ℝ) ^ ((2 * (i : ℕ) : ℝ) / (embed_dim : ℝ))

/-- The position embedding as worded by the spec (§4.1): the concatenation of
`sin (p * f_i)` for all frequencies followed by `cos (p * f_i)` for all
frequencies. -/
noncomputable def specPosEmbed (embed_dim : ℕ) (p : ℝ) :
    Fin (embed_dim / 2 + embed_dim / 2) → ℝ :=
  Fin.append (fun i => Real.sin (p * specFreq embed_dim i))
    (fun i => Real.cos (p * specFreq embed_dim i))

/-! ## Basic lemmas about softmax -/

lemma sum_exp_pos {T : ℕ} (hT : 0 < T) (x : Fin T → ℝ) :
    0 < ∑ i, Real.exp (x i) :=
  Finset.sum_pos (fun i _ => Real.exp_pos (x i)) ⟨⟨0, hT⟩, Finset.mem_univ _⟩

lemma sum_softmax {T : ℕ} (hT : 0 < T) (x : Fin T → ℝ) :
    ∑ t, softmax x t = 1 := by
  unfold softmax
  rw [← Finset.sum_div]
  exact div_self (ne_of_gt (sum_exp_pos hT x))

lemma softmax_pos {T : ℕ} (x : Fin T → ℝ) (t : Fin T) : 0 < softmax x t :=
  div_pos (Real.exp_pos _)
    (Finset.sum_pos (fun i _ => Real.exp_pos (x i)) ⟨t, Finset.mem_univ t⟩)

/-! ## Configuration (`args`) and the collaborators not contained in src/

`CharEmbed` and `RNNEncoder` are modules of this repository that are imported
by `bilstm_char.py` but whose source is not provided; they are modelled from
the interface the specification gives them in §6. -/

structure Args where
  char_vocab_size : ℕ
  char_embed_dim : ℕ
  char_hidden_size : ℕ
  hidden_size : ℕ
  nb_layer : ℕ
  rnn_dropout : ℝ
  embed_dropout : ℝ
  linear_dropout : ℝ
  label_size : ℕ

/-- Modelled from the spec: the `CharEmbed` collaborator (its source is not
under src/).  §6: `encode_chars(char_ids) -> per_token_vector`, deterministic
given fixed parameters; §2 describes it as turning the character ids of one
token into a fixed-size per-token vector, so `encode` acts per token.  The
construction keyword arguments of bilstm_char.py lines 44-47 are recorded as
fields. -/
structure CharEmbed (Hc : ℕ) where
  char_vocab_size : ℕ
  char_embedding_dim : ℕ
  dropout : ℝ
  encode : (ℕ → ℕ) → Fin Hc → ℝ

/-- Truncate a `Fin T`-indexed sequence to a ℕ-indexed one, padding with 0. -/
noncomputable def clampSeq {T : ℕ} {α : Type} [Zero α] (x : Fin T → α) :
    ℕ → α :=
  fun t => if h : t < T then x ⟨t, h⟩ else 0

/-- Modelled from the spec: one direction of the recurrent encoder
(`RNNEncoder` is a collaborator whose source is not under src/).  §6 requires
that "masking must prevent padding positions from influencing real positions'
outputs (e.g., via length-aware packing or explicit masking inside the
encoder)"; we model the explicit-masking scheme: a step whose mask is 0 leaves
the hidden state unchanged, so its input is never read (multiplied by the mask
value 0). `rnnStates cell h0 x m n` is the hidden state after consuming steps
`0 .. n-1`. -/
noncomputable def rnnStates {D H : ℕ}
    (cell : (Fin H → ℝ) → (Fin D → ℝ) → Fin H → ℝ)
    (h0 : Fin H → ℝ) (x : ℕ → Fin D → ℝ) (m : ℕ → ℝ) : ℕ → Fin H → ℝ
  | 0 => h0
  | t + 1 => fun j =>
      m t * cell (rnnStates cell h0 x m t) (x t) j
        + (1 - m t) * rnnStates cell h0 x m t j

/-- Modelled from the spec: `encode_sequence(fused_embeddings, mask) ->
(hidden_states, final_state)` of §6, bidirectional (a forward and a backward
pass whose per-step states are concatenated; width `H + H`), with the final
state exposing the last layer's direction-concatenated hidden summary (only
the state component of the LSTM `(h_n, c_n)` pair is consumed by `forward`,
bilstm_char.py lines 108-109, so only it is modelled; the recurrent depth is
abstracted into the cell functions). -/
noncomputable def encodeSeq {D H : ℕ}
    (cellF cellB : (Fin H → ℝ) → (Fin D → ℝ) → Fin H → ℝ)
    (h0F h0B : Fin H → ℝ) {T : ℕ}
    (x : Fin T → Fin D → ℝ) (m : Fin T → ℝ) :
    (Fin T → Fin (H + H) → ℝ) × (Fin (H + H) → ℝ) :=
  let xc := clampSeq x
  let mc := clampSeq m
  let xr : ℕ → Fin D → ℝ := fun t => xc (T - 1 - t)
  let mr : ℕ → ℝ := fun t => mc (T - 1 - t)
  let out : Fin T → Fin (H + H) → ℝ := fun t =>
    Fin.append (rnnStates cellF h0F xc mc (t.val + 1))
      (rnnStates cellB h0B xr mr (T - t.val))
  let hidden : Fin (H + H) → ℝ :=
    Fin.append (rnnStates cellF h0F xc mc T) (rnnStates cellB h0B xr mr T)
  (out, hidden)

/-! ## The BiLSTM model (`BiLSTM.__init__`, bilstm_char.py lines 33-63) -/

/-- The state a constructed model holds.  `V` is the vocabulary size, `E` the
word embedding width (`embedding_weights.shape[1]`), `Hc` the character hidden
size, `Hr` the recurrent hidden size per direction, `L` the label count. -/
structure BiLSTM (V E Hc Hr L : ℕ) where
  word_embedding : Fin V → Fin E → ℝ
  word_requires_grad : Bool
  char_embedding : CharEmbed Hc
  bidirectional : Bool
  nb_direction : ℕ
  rnn_type : String
  cellF : (Fin Hr → ℝ) → (Fin (E + Hc) → ℝ) → Fin Hr → ℝ
  cellB : (Fin Hr → ℝ) → (Fin (E + Hc) → ℝ) → Fin Hr → ℝ
  h0F : Fin Hr → ℝ
  h0B : Fin Hr → ℝ
  embed_drop_p : ℝ
  linear_drop_p : ℝ
  linear_in_features : ℕ
  linear_out_features : ℕ
  linear_weight : Fin L → Fin (Hr + Hr) → ℝ
  linear_bias : Fin L → ℝ

/-- The learned parameters chosen by the initializers of the sub-modules; the
constructor receives them opaquely (their random initialization is outside the
forward semantics). -/
structure InitWeights (E Hc Hr L : ℕ) where
  char_encode : (ℕ → ℕ) → Fin Hc → ℝ
  cellF : (Fin Hr → ℝ) → (Fin (E + Hc) → ℝ) → Fin Hr → ℝ
  cellB : (Fin Hr → ℝ) → (Fin (E + Hc) → ℝ) → Fin Hr → ℝ
  h0F : Fin Hr → ℝ
  h0B : Fin Hr → ℝ
  linear_weight : Fin L → Fin (Hr + Hr) → ℝ
  linear_bias : Fin L → ℝ

/-- `BiLSTM.__init__` (bilstm_char.py lines 34-63): loads the pretrained table
with `requires_grad = False`, builds the `CharEmbed` with the hard-coded
`dropout=0.5`, fixes `_bidirectional = True`, `_nb_direction = 2`,
`_rnn_type = 'lstm'`, and builds the classifier
`nn.Linear(args.hidden_size * _nb_direction, args.label_size)`. -/
noncomputable def BiLSTM.init {V E : ℕ} (args : Args)
    (embedding_weights : Fin V → Fin E → ℝ)
    (w : InitWeights E args.char_hidden_size args.hidden_size args.label_size) :
    BiLSTM V E args.char_hidden_size args.hidden_size args.label_size where
  word_embedding := embedding_weights
  word_requires_grad := false
  char_embedding :=
    { char_vocab_size := args.char_vocab_size
      char_embedding_dim := args.char_embed_dim
      dropout := 0.5
      encode := w.char_encode }
  bidirectional := true
  nb_direction := 2
  rnn_type := "lstm"
  cellF := w.cellF
  cellB := w.cellB
  h0F := w.h0F
  h0B := w.h0B
  embed_drop_p := args.embed_dropout
  linear_drop_p := args.linear_dropout
  linear_in_features := args.hidden_size * 2
  linear_out_features := args.label_size
  linear_weight := w.linear_weight
  linear_bias := w.linear_bias

/-! ## `BiLSTM.forward` (bilstm_char.py lines 95-124)

Dropout is a source of randomness; it is modelled as multiplication by an
arbitrary noise field, applied only when the training flag is on (the source
guards both dropout applications with `if self.training`). -/

structure Noise where
  embedN : ℕ → ℕ → ℕ → ℝ
  linearN : ℕ → ℕ → ℝ

/-- The fused embedding
`torch.cat((self.word_embedding(wds_input), self.char_embedding(chars_input)), dim=2)`. -/
noncomputable def fusedEmbed {V E Hc Hr L : ℕ} (M : BiLSTM V E Hc Hr L)
    {B T : ℕ} (wds_input : Fin B → Fin T → Fin V)
    (chars_input : Fin B → Fin T → ℕ → ℕ) :
    Fin B → Fin T → Fin (E + Hc) → ℝ :=
  fun b t =>
    Fin.append (M.word_embedding (wds_input b t))
      (M.char_embedding.encode (chars_input b t))

/-- `if self.training: embed = self.embed_drop(embed)`. -/
noncomputable def embedDrop (training : Bool) (noise : Noise) {B T D : ℕ}
    (e : Fin B → Fin T → Fin D → ℝ) : Fin B → Fin T → Fin D → ℝ :=
  if training then (fun b t d => noise.embedN b.val t.val d.val * e b t d)
  else e

/-- `if self.training: out = self.linear_drop(out)`. -/
noncomputable def linearDrop (training : Bool) (noise : Noise) {B H : ℕ}
    (o : Fin B → Fin H → ℝ) : Fin B → Fin H → ℝ :=
  if training then (fun b h => noise.linearN b.val h.val * o b h) else o

/-- `BiLSTM.forward`: fused embedding, (training-only) embed dropout, the
recurrent encoder, attention pooling of the recurrent outputs queried by the
hidden summary `hidden_n[0][-1]`, (training-only) linear dropout, and the
affine classifier `self.linear`. -/
noncomputable def BiLSTM.forward {V E Hc Hr L : ℕ} (M : BiLSTM V E Hc Hr L)
    (training : Bool) (noise : Noise) {B T : ℕ}
    (wds_input : Fin B → Fin T → Fin V)
    (chars_input : Fin B → Fin T → ℕ → ℕ)
    (mask : Fin B → Fin T → ℝ) : Fin B → Fin L → ℝ :=
  let embed := embedDrop training noise (fusedEmbed M wds_input chars_input)
  let enc := fun b => encodeSeq M.cellF M.cellB M.h0F M.h0B (embed b) (mask b)
  let att := attention (fun b => (enc b).2) (fun b => (enc b).1) (some mask)
  let out := linearDrop training noise att.1
  fun b l => (∑ h, out b h * M.linear_weight l h) + M.linear_bias l

/-- `forward` with explicit state passing: the Python method assigns no
attribute of `self` (the only in-place operation, `att_weights.mul_`, targets
a local tensor), so the model state after the call is the model it was called
on. -/
noncomputable def BiLSTM.forwardS {V E Hc Hr L : ℕ} (M : BiLSTM V E Hc Hr L)
    (training : Bool) (noise : Noise) {B T : ℕ}
    (wds_input : Fin B → Fin T → Fin V)
    (chars_input : Fin B → Fin T → ℕ → ℕ)
    (mask : Fin B → Fin T → ℝ) :
    (Fin B → Fin L → ℝ) × BiLSTM V E Hc Hr L :=
  (M.forward training noise wds_input chars_input mask, M)

/-- Monotonicity of a softmax coordinate in its own argument: if two score
vectors agree away from `p` and the first is no larger at `p`, the softmax
weight at `p` is no larger either. -/
lemma softmax_le_of_arg {T : ℕ} (f g : Fin T → ℝ) (p : Fin T)
    (hfg : ∀ t, t ≠ p → f t = g t) (hle : f p ≤ g p) :
    softmax f p ≤ softmax g p := by
  unfold softmax
  have hA : 0 ≤ ∑ t ∈ Finset.univ.erase p, Real.exp (f t) :=
    Finset.sum_nonneg (fun t _ => (Real.exp_pos _).le)
  have hsf : ∑ t, Real.exp (f t)
      = (∑ t ∈ Finset.univ.erase p, Real.exp (f t)) + Real.exp (f p) :=
    (Finset.sum_erase_add _ _ (Finset.mem_univ p)).symm
  have herase : ∑ t ∈ Finset.univ.erase p, Real.exp (g t)
      = ∑ t ∈ Finset.univ.erase p, Real.exp (f t) :=
    Finset.sum_congr rfl (fun t ht =>
      congrArg Real.exp (hfg t (Finset.ne_of_mem_erase ht)).symm)
  have hsg : ∑ t, Real.exp (g t)
      = (∑ t ∈ Finset.univ.erase p, Real.exp (f t)) + Real.exp (g p) := by
    rw [← herase]
    exact (Finset.sum_erase_add _ _ (Finset.mem_univ p)).symm
  rw [hsf, hsg]
  have hef : 0 < Real.exp (f p) := Real.exp_pos _
  have heg : 0 < Real.exp (g p) := Real.exp_pos _
  have hexp : Real.exp (f p) ≤ Real.exp (g p) := Real.exp_le_exp.mpr hle
  rw [div_le_div_iff (by linarith) (by linarith)]
  nlinarith

/-! ## Congruence of the masked recurrence in the inputs at a padded step -/

/-- If the mask is 0 at step `p`, the masked recurrence never reads the input
of step `p`: two input sequences agreeing before `n` away from `p` yield the
same state at `n`. -/
lemma rnnStates_congr {D H : ℕ}
    (cell : (Fin H → ℝ) → (Fin D → ℝ) → Fin H → ℝ) (h0 : Fin H → ℝ)
    (x x' : ℕ → Fin D → ℝ) (m : ℕ → ℝ) (p : ℕ) (hm : m p = 0) :
    ∀ n, (∀ t, t < n → t ≠ p → x t = x' t) →
      rnnStates cell h0 x m n = rnnStates cell h0 x' m n := by
  intro n
  induction n with
  | zero => intro _; rfl
  | succ k ih =>
    intro hx
    have hk : rnnStates cell h0 x m k = rnnStates cell h0 x' m k :=
      ih (fun t ht => hx t (Nat.lt_succ_of_lt ht))
    by_cases hkp : k = p
    · subst hkp
      funext j
      simp only [rnnStates, hm, hk, zero_mul, zero_add, sub_zero, one_mul]
    · funext j
      simp only [rnnStates, hk, hx k (Nat.lt_succ_self k) hkp]

/-- If the mask is 0 at position `p`, the encoder output and the hidden
summary do not depend on the input at `p`. -/
lemma encodeSeq_congr {D H T : ℕ}
    (cellF cellB : (Fin H → ℝ) → (Fin D → ℝ) → Fin H → ℝ)
    (h0F h0B : Fin H → ℝ) (x x' : Fin T → Fin D → ℝ) (m : Fin T → ℝ)
    (p : Fin T) (hm : m p = 0) (hx : ∀ t, t ≠ p → x t = x' t) :
    encodeSeq cellF cellB h0F h0B x m = encodeSeq cellF cellB h0F h0B x' m := by
  have hxc : ∀ t, t ≠ p.val → clampSeq x t = clampSeq x' t := by
    intro t ht
    unfold clampSeq
    by_cases h : t < T
    · rw [dif_pos h, dif_pos h]
      refine hx ⟨t, h⟩ (fun he => ht ?_)
      exact congrArg Fin.val he
    · rw [dif_neg h, dif_neg h]
  have hmc : clampSeq m p.val = 0 := by
    unfold clampSeq
    rw [dif_pos p.isLt]
    simpa using hm
  have hFwd : ∀ n, rnnStates cellF h0F (clampSeq x) (clampSeq m) n
      = rnnStates cellF h0F (clampSeq x') (clampSeq m) n := by
    intro n
    exact rnnStates_congr cellF h0F _ _ _ p.val hmc n (fun t _ ht => hxc t ht)
  have hrm : clampSeq m (T - 1 - (T - 1 - p.val)) = 0 := by
    have hpT : p.val < T := p.isLt
    have : T - 1 - (T - 1 - p.val) = p.val := by omega
    rw [this]
    exact hmc
  have hBwd : ∀ n, n ≤ T →
      rnnStates cellB h0B (fun u => clampSeq x (T - 1 - u))
        (fun u => clampSeq m (T - 1 - u)) n
      = rnnStates cellB h0B (fun u => clampSeq x' (T - 1 - u))
        (fun u => clampSeq m (T - 1 - u)) n := by
    intro n hn
    refine rnnStates_congr cellB h0B _ _ _ (T - 1 - p.val) hrm n ?_
    intro t ht hne
    have hpT : p.val < T := p.isLt
    refine hxc (T - 1 - t) (fun he => hne ?_)
    omega
  unfold encodeSeq
  refine congrArg₂ Prod.mk ?_ ?_
  · funext t
    rw [hFwd (t.val + 1), hBwd (T - t.val) (by omega)]
  · rw [hFwd T, hBwd T le_rfl]

/-! ## Dropout is skipped outside training mode -/

lemma embedDrop_false (noise : Noise) {B T D : ℕ}
    (e : Fin B → Fin T → Fin D → ℝ) : embedDrop false noise e = e := rfl

lemma linearDrop_false (noise : Noise) {B H : ℕ}
    (o : Fin B → Fin H → ℝ) : linearDrop false noise o = o := rfl

/-! ## The claims -/

set_option maxHeartbeats 1000000 in
/-- C2. Attention algorithm: for every query, keys/values, and optional mask,
`_attention` computes raw scores as dot products `hidden_n[b] · encoder_output[b,t]`,
multiplies the raw scores elementwise by the mask (when supplied) before any
scaling, then multiplies by `1/sqrt(H)`, applies softmax over the time
dimension, and returns the pooled vector
`att_out[b] = Σ_t weight[b,t] · encoder_output[b,t]` together with the weight
distribution: the source `attention` coincides with `attentionSpec`, the
pipeline written from the specification's words. -/
theorem attention_refines_spec {B T H : ℕ} (hidden_n : Fin B → Fin H → ℝ)
    (encoder_output : Fin B → Fin T → Fin H → ℝ)
    (mask : Option (Fin B → Fin T → ℝ)) :
    attention hidden_n encoder_output mask
      = attentionSpec hidden_n encoder_output mask := by
  cases mask <;> simp only [attention, attentionSpec, rawScore, Option.elim]

/-- C8. Every position of every example — masked or not — receives a strictly
positive post-softmax attention weight (the multiplicative masking zeroes the
score, not the weight, and `exp` is positive), so every value vector
contributes nonzero mass to the pooled vector. -/
theorem attention_weight_pos {B T H : ℕ} (hidden_n : Fin B → Fin H → ℝ)
    (encoder_output : Fin B → Fin T → Fin H → ℝ)
    (mask : Option (Fin B → Fin T → ℝ)) (b : Fin B) (t : Fin T) :
    0 < (attention hidden_n encoder_output mask).2 b t := by
  cases mask <;> simp only [attention, Option.elim] <;> exact softmax_pos _ t

/-- C9. The model is unconditionally bidirectional with an LSTM cell: for
every configuration, construction fixes `_bidirectional = True`,
`_nb_direction = 2` and `_rnn_type = 'lstm'`, and the classifier is built as
an affine `nn.Linear` map with `in_features = hidden_size * 2` and
`out_features = label_size` (the recurrent outputs and the pooled vector have
width `Hr + Hr = hidden_size * 2` by the types of `encodeSeq` and
`attention`). -/
theorem bidirectional_lstm_fixed {V E : ℕ} (args : Args)
    (embedding_weights : Fin V → Fin E → ℝ)
    (w : InitWeights E args.char_hidden_size args.hidden_size args.label_size) :
    (BiLSTM.init args embedding_weights w).bidirectional = true ∧
    (BiLSTM.init args embedding_weights w).nb_direction = 2 ∧
    (BiLSTM.init args embedding_weights w).rnn_type = "lstm" ∧
    (BiLSTM.init args embedding_weights w).linear_in_features
      = args.hidden_size * 2 ∧
    (BiLSTM.init args embedding_weights w).linear_out_features
      = args.label_size :=
  ⟨rfl, rfl, rfl, rfl, rfl⟩

/-- C10. The character encoder's dropout rate is hard-coded to `0.5` at model
construction, for every configuration (independently of the configured
`rnn_dropout`, `embed_dropout` and `linear_dropout`). -/
theorem char_dropout_hardcoded {V E : ℕ} (args : Args)
    (embedding_weights : Fin V → Fin E → ℝ)
    (w : InitWeights E args.char_hidden_size args.hidden_size args.label_size) :
    (BiLSTM.init args embedding_weights w).char_embedding.dropout = 0.5 :=
  rfl

/-- C7. Frozen word embedding table: construction marks the pretrained table
non-trainable (`requires_grad = False`) and installs it unchanged, and a
forward call leaves the model — in particular the table — untouched, so the
word-embedding lookup of a given token id is the same across all forward
calls for the lifetime of the model. -/
theorem word_embedding_frozen {V E B T : ℕ} (args : Args)
    (embedding_weights : Fin V → Fin E → ℝ)
    (w : InitWeights E args.char_hidden_size args.hidden_size args.label_size)
    (training : Bool) (noise : Noise)
    (wds_input : Fin B → Fin T → Fin V)
    (chars_input : Fin B → Fin T → ℕ → ℕ)
    (mask : Fin B → Fin T → ℝ) :
    (BiLSTM.init args embedding_weights w).word_requires_grad = false ∧
    (BiLSTM.init args embedding_weights w).word_embedding
      = embedding_weights ∧
    ((BiLSTM.init args embedding_weights w).forwardS training noise
        wds_input chars_input mask).2
      = BiLSTM.init args embedding_weights w :=
  ⟨rfl, rfl, rfl⟩

/-- C6. Determinism in inference mode: with the training flag off, both
dropout branches are skipped, so the dropout randomness (the only
nondeterministic ingredient of a forward call) cannot reach the output: two
calls with identical token ids, character ids and mask — but arbitrary,
possibly different, dropout noise — yield identical logits. -/
theorem forward_deterministic_eval {V E Hc Hr L B T : ℕ}
    (M : BiLSTM V E Hc Hr L) (noise₁ noise₂ : Noise)
    (wds_input : Fin B → Fin T → Fin V)
    (chars_input : Fin B → Fin T → ℕ → ℕ)
    (mask : Fin B → Fin T → ℝ) :
    M.forward false noise₁ wds_input chars_input mask
      = M.forward false noise₂ wds_input chars_input mask := by
  simp only [BiLSTM.forward, embedDrop_false, linearDrop_false]

/-- C5. Position Embedder: for every even `embed_dim` and every batch of
position sequences, `PositionEmbed.forward` returns per example (independently,
stacked along the batch dimension) the concatenation of `sin (p * f_i)` for
all frequencies followed by `cos (p * f_i)` for all frequencies, with
`f_i = 1 / 10000 ^ (2i / embed_dim)`; in particular position `0` maps to a
zero-vector concatenated with a ones-vector. -/
theorem positionEmbed_correct (embed_dim : ℕ) (hEven : Even embed_dim)
    {B S : ℕ} (pos_seqs : Fin B → Fin S → ℝ) (b : Fin B) (s : Fin S) :
    PositionEmbed.forward embed_dim pos_seqs b s
      = specPosEmbed embed_dim (pos_seqs b s) ∧
    (pos_seqs b s = 0 →
      PositionEmbed.forward embed_dim pos_seqs b s
        = Fin.append (fun _ => (0 : ℝ)) (fun _ => (1 : ℝ))) := by
  constructor
  · rfl
  · intro h0
    unfold PositionEmbed.forward
    rw [h0]
    have hsin : (fun i => Real.sin ((0 : ℝ) * PositionEmbed.pe embed_dim i))
        = fun _ => (0 : ℝ) := by
      funext i
      rw [zero_mul, Real.sin_zero]
    have hcos : (fun i => Real.cos ((0 : ℝ) * PositionEmbed.pe embed_dim i))
        = fun _ => (1 : ℝ) := by
      funext i
      rw [zero_mul, Real.cos_zero]
    rw [hsin, hcos]

/-- Witness for C5 at `embed_dim = 4` and the constant-zero position batch. -/
theorem positionEmbed_correct_witness :
    Even 4 ∧
    (PositionEmbed.forward 4 (fun (_ : Fin 1) (_ : Fin 1) => (0 : ℝ)) 0 0
        = specPosEmbed 4 ((fun (_ : Fin 1) (_ : Fin 1) => (0 : ℝ)) 0 0) ∧
      ((fun (_ : Fin 1) (_ : Fin 1) => (0 : ℝ)) 0 0 = 0 →
        PositionEmbed.forward 4 (fun (_ : Fin 1) (_ : Fin 1) => (0 : ℝ)) 0 0
          = Fin.append (fun _ => (0 : ℝ)) (fun _ => (1 : ℝ)))) :=
  ⟨⟨2, rfl⟩, positionEmbed_correct 4 ⟨2, rfl⟩ (fun _ _ => (0 : ℝ)) 0 0⟩

/-! ## Concrete instances used by counterexamples and witnesses -/

/-- A batch-1, length-2 mask whose second position is padding. -/
noncomputable def cexMask : Fin 1 → Fin 2 → ℝ := fun _ t => if t = 0 then 1 else 0

/-- A zero query (all raw scores vanish). -/
noncomputable def cexQuery : Fin 1 → Fin 1 → ℝ := fun _ _ => 0

/-- Constant keys/values. -/
noncomputable def cexKeys : Fin 1 → Fin 2 → Fin 1 → ℝ := fun _ _ _ => 1

/-- A constant-one query. -/
noncomputable def cexQuery4 : Fin 1 → Fin 1 → ℝ := fun _ _ => 1

/-- Keys giving raw score `1` at the valid position and `-1` at the padded
position. -/
noncomputable def cexKeys4 : Fin 1 → Fin 2 → Fin 1 → ℝ :=
  fun _ t _ => if t = 0 then 1 else -1

/-- C3 counterexample: with mask `[1, 0]` and a zero query all masked scores
are `0`, so softmax is uniform and the weight of the single non-padding
position is `1/2`: the weights restricted to non-padding positions do NOT sum
to 1 (the padded position keeps weight `1/2` after normalization). -/
theorem valid_weight_sum_cex :
    cexMask 0 1 = 0 ∧ cexMask 0 0 = 1 ∧
    (∑ t ∈ Finset.univ.filter (fun t : Fin 2 => cexMask 0 t = 1),
        (attention cexQuery cexKeys (some cexMask)).2 0 t) ≠ 1 := by
  refine ⟨rfl, rfl, ?_⟩
  have hf : Finset.univ.filter (fun t : Fin 2 => cexMask 0 t = 1) = {0} := by
    ext t
    fin_cases t <;> simp [cexMask]
  rw [hf, Finset.sum_singleton]
  have hw : (attention cexQuery cexKeys (some cexMask)).2 0 0 = 1 / 2 := by
    simp [attention, Option.elim, rawScore, softmax, cexQuery, cexKeys,
      cexMask, Fin.sum_univ_two]
  rw [hw]
  norm_num

/-- C3 (amended): the normalized attention weights sum to 1 over ALL `T`
positions of each example — padding positions included — whenever `T` is
positive; the restriction to non-padding positions can sum to less. -/
theorem att_weights_sum_one {B T H : ℕ} (hT : 0 < T)
    (hidden_n : Fin B → Fin H → ℝ)
    (encoder_output : Fin B → Fin T → Fin H → ℝ)
    (mask : Option (Fin B → Fin T → ℝ)) (b : Fin B) :
    ∑ t, (attention hidden_n encoder_output mask).2 b t = 1 := by
  cases mask <;> simp only [attention, Option.elim] <;> exact sum_softmax hT _

/-- Witness for the amended C3 at `T = 1`. -/
theorem att_weights_sum_one_witness :
    (0 : ℕ) < 1 ∧
    ∑ t : Fin 1, (attention (fun (_ : Fin 1) (_ : Fin 1) => (0 : ℝ))
        (fun (_ : Fin 1) (_ : Fin 1) (_ : Fin 1) => (0 : ℝ)) none).2 0 t = 1 :=
  ⟨Nat.one_pos, att_weights_sum_one Nat.one_pos _ _ none 0⟩

/-- C4 counterexample: with query `1`, keys `[1, -1]` and mask `[1, 0]`, the
padded position's raw score `-1` is replaced by `0` by the multiplicative
mask, which RAISES its softmax weight: masked weight `1/(e+1)` versus
unmasked weight `e⁻¹/(e+e⁻¹)`, so the claimed inequality fails. -/
theorem masked_weight_gt_cex :
    cexMask 0 1 = 0 ∧
    (attention cexQuery4 cexKeys4 none).2 0 1
      < (attention cexQuery4 cexKeys4 (some cexMask)).2 0 1 := by
  refine ⟨rfl, ?_⟩
  have hm : (attention cexQuery4 cexKeys4 (some cexMask)).2 0 1
      = 1 / (Real.exp 1 + 1) := by
    simp [attention, Option.elim, rawScore, softmax, cexQuery4, cexKeys4,
      cexMask, Fin.sum_univ_two, Real.sqrt_one]
  have hu : (attention cexQuery4 cexKeys4 none).2 0 1
      = Real.exp (-1) / (Real.exp 1 + Real.exp (-1)) := by
    simp [attention, Option.elim, rawScore, softmax, cexQuery4, cexKeys4,
      Fin.sum_univ_two, Real.sqrt_one]
  rw [hm, hu]
  have h2 : (2 : ℝ) ≤ Real.exp 1 := by
    have h := Real.add_one_le_exp (1 : ℝ)
    linarith
  have hp : (0 : ℝ) < Real.exp 1 := Real.exp_pos 1
  have hq : (0 : ℝ) < Real.exp (-1) := Real.exp_pos _
  have hinv : Real.exp (-1) * Real.exp 1 = 1 := by
    rw [← Real.exp_add]
    norm_num
  rw [div_lt_div_iff (by positivity) (by positivity)]
  nlinarith

/-- C4 (amended): when the padded position `p` is the only masked position of
its example and its raw score is nonnegative, the weight `_attention` assigns
to `p` under the mask is at most the weight it receives with no mask (the
multiplicative mask can only lower the score `raw ≥ 0` to `0`, and a softmax
coordinate is monotone in its own score). -/
theorem masked_weight_le_unmasked {B T H : ℕ}
    (hidden_n : Fin B → Fin H → ℝ)
    (encoder_output : Fin B → Fin T → Fin H → ℝ)
    (m : Fin B → Fin T → ℝ) (b : Fin B) (p : Fin T)
    (hp : m b p = 0) (hoth : ∀ t, t ≠ p → m b t = 1)
    (hs : 0 ≤ rawScore hidden_n encoder_output b p) :
    (attention hidden_n encoder_output (some m)).2 b p
      ≤ (attention hidden_n encoder_output none).2 b p := by
  simp only [attention, Option.elim]
  apply softmax_le_of_arg
  · intro t ht
    rw [hoth t ht, mul_one]
  · rw [hp, mul_zero, zero_mul]
    have hc : 0 ≤ 1 / Real.sqrt (H : ℝ) := by positivity
    exact mul_nonneg hs hc

/-- Witness for the amended C4: mask `[1, 0]`, zero query (raw score of the
padded position is `0 ≥ 0`). -/
theorem masked_weight_le_unmasked_witness :
    cexMask 0 1 = 0 ∧ (∀ t : Fin 2, t ≠ 1 → cexMask 0 t = 1) ∧
    0 ≤ rawScore cexQuery cexKeys 0 1 ∧
    (attention cexQuery cexKeys (some cexMask)).2 0 1
      ≤ (attention cexQuery cexKeys none).2 0 1 :=
  ⟨rfl,
    fun t ht => match t, ht with
      | ⟨0, _⟩, _ => rfl
      | ⟨1, _⟩, ht => absurd rfl ht,
    by simp [rawScore, cexQuery, cexKeys],
    masked_weight_le_unmasked cexQuery cexKeys cexMask 0 1 rfl
      (fun t ht => match t, ht with
        | ⟨0, _⟩, _ => rfl
        | ⟨1, _⟩, ht => absurd rfl ht)
      (by simp [rawScore, cexQuery, cexKeys])⟩

/-- C1. Masking invariance in non-training mode: if position `p` of example
`b` is padding (`mask b p = 0`, with at least one valid position in that
example) then changing the token id and character ids at `(b, p)` — and
nowhere else — leaves example `b`'s logits unchanged.  The padded step's
fused embedding never reaches the recurrent states (its mask multiplier is
0), so the recurrent outputs, the hidden summary, the attention pool and the
classifier output are all unchanged. -/
theorem masking_invariance {V E Hc Hr L B T : ℕ} (M : BiLSTM V E Hc Hr L)
    (noise : Noise) (wds wds' : Fin B → Fin T → Fin V)
    (chars chars' : Fin B → Fin T → ℕ → ℕ) (mask : Fin B → Fin T → ℝ)
    (b : Fin B) (p : Fin T) (hmask : mask b p = 0)
    (hvalid : ∃ t, mask b t = 1)
    (hw : ∀ b' t, (b', t) ≠ (b, p) → wds b' t = wds' b' t)
    (hc : ∀ b' t, (b', t) ≠ (b, p) → chars b' t = chars' b' t) :
    M.forward false noise wds chars mask b
      = M.forward false noise wds' chars' mask b := by
  have hfe : ∀ b' t, (b' ≠ b ∨ t ≠ p) →
      fusedEmbed M wds chars b' t = fusedEmbed M wds' chars' b' t := by
    intro b' t h
    have hne : (b', t) ≠ (b, p) := by
      intro he
      rcases h with h | h
      · exact h (congrArg Prod.fst he)
      · exact h (congrArg Prod.snd he)
    unfold fusedEmbed
    rw [hw b' t hne, hc b' t hne]
  have henc : ∀ b', encodeSeq M.cellF M.cellB M.h0F M.h0B
        (fusedEmbed M wds chars b') (mask b')
      = encodeSeq M.cellF M.cellB M.h0F M.h0B
        (fusedEmbed M wds' chars' b') (mask b') := by
    intro b'
    by_cases hb : b' = b
    · subst hb
      exact encodeSeq_congr M.cellF M.cellB M.h0F M.h0B _ _ _ p hmask
        (fun t ht => hfe b' t (Or.inr ht))
    · have heq : fusedEmbed M wds chars b' = fusedEmbed M wds' chars' b' :=
        funext (fun t => hfe b' t (Or.inl hb))
      rw [heq]
  simp only [BiLSTM.forward, embedDrop_false]
  simp only [henc]

/-! Concrete model for the C1 witness: batch 1, length 2, vocabulary 2,
all widths 1, mask `[1, 0]`, with the token id at the padded position changed
from `0` to `1`. -/

def cwds : Fin 1 → Fin 2 → Fin 2 := fun _ _ => 0

def cwds' : Fin 1 → Fin 2 → Fin 2 := fun _ t => if t = 1 then 1 else 0

def cchars : Fin 1 → Fin 2 → ℕ → ℕ := fun _ _ _ => 0

noncomputable def cargs : Args :=
  { char_vocab_size := 1
    char_embed_dim := 1
    char_hidden_size := 1
    hidden_size := 1
    nb_layer := 1
    rnn_dropout := 0
    embed_dropout := 0
    linear_dropout := 0
    label_size := 1 }

noncomputable def cweights : Fin 2 → Fin 1 → ℝ := fun v _ => if v = 0 then 0 else 5

noncomputable def cinit : InitWeights 1 1 1 1 where
  char_encode := fun _ _ => 0
  cellF := fun h x _ => h 0 + x 0
  cellB := fun h x _ => h 0 + x 0
  h0F := fun _ => 0
  h0B := fun _ => 0
  linear_weight := fun _ _ => 1
  linear_bias := fun _ => 0

noncomputable def cModel : BiLSTM 2 1 1 1 1 := BiLSTM.init cargs cweights cinit

noncomputable def cNoise : Noise := ⟨fun _ _ _ => 0, fun _ _ => 0⟩

/-- Witness for C1: the concrete model's logits of example 0 are unaffected
by changing the token id at the padded position 1. -/
theorem masking_invariance_witness :
    cexMask 0 1 = 0 ∧ (∃ t, cexMask 0 t = 1) ∧
    cModel.forward false cNoise cwds cchars cexMask 0
      = cModel.forward false cNoise cwds' cchars cexMask 0 :=
  ⟨rfl, ⟨0, rfl⟩,
    masking_invariance cModel cNoise cwds cwds' cchars cchars cexMask 0 1 rfl
      ⟨0, rfl⟩ (by decide) (fun _ _ _ => rfl)⟩

end TextClassification
